import Mathlib

/-!
Shallow embedding of the Image Source Method engine in `src/ism/ism.py`.

The geometric/physical primitives (the external `geometry` package and the
compiled `ism._ism` module, which are not part of `src/`) are abstracted as a
parameter structure `Geo`; the `Mirror` data entity, which lives in `ism._ism`,
is modelled from the spec's data model.  Everything else is translated directly
from `src/ism/ism.py`.
-/

namespace ISM

/-- Complex amplitudes are modelled as pairs (real part, imaginary part) of
integers; the core never performs arithmetic on them, it only stores, passes
and compares them. -/
abbrev Cx : Type := Int × Int

/-- numpy's ordering on complex values (used by `ndarray.max()` on a
`complex128` array) is lexicographic: first the real part, then the imaginary
part. -/
def cxLe (a b : Cx) : Prop := a.1 < b.1 ∨ (a.1 = b.1 ∧ a.2 ≤ b.2)

instance : DecidableRel cxLe := fun a b => by unfold cxLe; infer_instance

theorem cxLe_total (a b : Cx) : cxLe a b ∨ cxLe b a := by
  rcases a with ⟨a1, a2⟩; rcases b with ⟨b1, b2⟩; unfold cxLe; simp only; omega

theorem cxLe_trans (a b c : Cx) : cxLe a b → cxLe b c → cxLe a c := by
  rcases a with ⟨a1, a2⟩; rcases b with ⟨b1, b2⟩; rcases c with ⟨c1, c2⟩
  unfold cxLe; simp only; omega

/-- `x.strength.max()` on a nonempty flattened complex array: the greatest
element in numpy's lexicographic order.  numpy raises on an empty array, so the
`[]` branch is unreachable for evaluated mirrors (their arrays have shape
`(receiver_count, frequency_count)`). -/
def npmax : List Cx → Cx
  | [] => (0, 0)
  | x :: xs => xs.foldl (fun acc c => if cxLe acc c then c else acc) x

/-- Squared magnitude of a complex value.  Comparing squared magnitudes is
equivalent to comparing magnitudes, which avoids square roots.  This is a
spec-side notion (the spec's "peak strength ... maximum magnitude"); the code
itself never computes magnitudes. -/
def magSq (a : Cx) : Int := a.1 * a.1 + a.2 * a.2

/-- Spec-side peak strength of a strength matrix: the maximum magnitude over
the whole `(receiver, frequency)` array, represented by its square. -/
def peakMagSq (s : List (List Cx)) : Int := (s.flatten.map magSq).foldl max 0

/-- `amount_of_sources(order, walls)` from `ism.py`:
`1 + sum(walls*(walls-1)**(o-1) for o in range(1, order+1))`.
`walls` is an integer; Python's `**` on a possibly negative base is exact
integer arithmetic, hence the `Int` codomain. -/
def amount_of_sources (order : Nat) (walls : Int) : Int :=
  1 + ((List.range' 1 order).map (fun o => walls * (walls - 1) ^ (o - 1))).sum

/-- Modelled from the spec: the `Mirror` data entity (class `Mirror` of
`ism._ism`, which is not under `src/`): an image-source position, an optional
mother link, the optional generating wall (absent exactly for the root), and
the reflection order.  The program constructs mirrors only via
`Mirror(source_position, mother=None, wall=None, order=0)` and
`Mirror(position, mirror, wall, order)`. -/
inductive Mirror (P Wl : Type) : Type where
  | mk (position : P) (mother : Option (Mirror P Wl)) (wall : Option Wl) (order : Nat)

def Mirror.position {P Wl : Type} : Mirror P Wl → P
  | .mk p _ _ _ => p

def Mirror.mother {P Wl : Type} : Mirror P Wl → Option (Mirror P Wl)
  | .mk _ m _ _ => m

def Mirror.wall {P Wl : Type} : Mirror P Wl → Option Wl
  | .mk _ _ w _ => w

def Mirror.order {P Wl : Type} : Mirror P Wl → Nat
  | .mk _ _ _ o => o

/-- Structural (value) equality test for mirrors. -/
def Mirror.beq {P Wl : Type} [DecidableEq P] [DecidableEq Wl] :
    Mirror P Wl → Mirror P Wl → Bool
  | .mk p1 none w1 o1, .mk p2 none w2 o2 =>
      decide (p1 = p2) && decide (w1 = w2) && decide (o1 = o2)
  | .mk p1 (some a) w1 o1, .mk p2 (some b) w2 o2 =>
      decide (p1 = p2) && Mirror.beq a b && decide (w1 = w2) && decide (o1 = o2)
  | .mk _ none _ _, .mk _ (some _) _ _ => false
  | .mk _ (some _) _ _, .mk _ none _ _ => false

theorem Mirror.beq_iff_eq {P Wl : Type} [DecidableEq P] [DecidableEq Wl] :
    (a b : Mirror P Wl) → (Mirror.beq a b = true ↔ a = b)
  | .mk p1 none w1 o1, .mk p2 none w2 o2 => by
      simp [Mirror.beq, Mirror.mk.injEq, and_assoc]
  | .mk p1 (some a) w1 o1, .mk p2 (some b) w2 o2 => by
      have ih := Mirror.beq_iff_eq a b
      simp [Mirror.beq, Mirror.mk.injEq, ih, and_assoc]
  | .mk p1 none w1 o1, .mk p2 (some b) w2 o2 => by
      simp [Mirror.beq, Mirror.mk.injEq]
  | .mk p1 (some a) w1 o1, .mk p2 none w2 o2 => by
      simp [Mirror.beq, Mirror.mk.injEq]

instance {P Wl : Type} [DecidableEq P] [DecidableEq Wl] : DecidableEq (Mirror P Wl) :=
  fun a b => decidable_of_iff (Mirror.beq a b = true) (Mirror.beq_iff_eq a b)

/-- The external geometry/physics provider.  `geometry.Point`,
`geometry.Plane`, the `Wall` class and the functions `is_shadowed` /
`test_effectiveness` of `ism._ism` are outside `src/`; the spec lists them as
external collaborators, so they are parameters of the embedding. -/
structure Geo (P Wl Pn : Type) where
  /-- `wall.plane()` -/
  plane : Wl → Pn
  /-- `wall.center` -/
  center : Wl → P
  /-- `point.on_interior_side_of(plane)`: `-1` classifies the exterior side. -/
  onInteriorSideOf : P → Pn → Int
  /-- `target.in_field_angle(viewer, reference_wall, target_plane)` -/
  inFieldAngle : P → P → Wl → Pn → Bool
  /-- `point.mirror_with(plane)`: reflection across the plane. -/
  mirrorWith : P → Pn → P
  /-- `point.distance_to(point)` -/
  distanceTo : P → P → Rat
  /-- `wall.impedance`, one entry per frequency. -/
  impedance : Wl → List Cx
  /-- `test_effectiveness(walls, source, receiver, position, wall, mother_strength)`
  returning `(effective, strength, distance)`. -/
  testEffectiveness : List Wl → P → P → P → Option Wl → List Cx → Int × List Cx × Rat

/-- The guarded field-of-view check of Step 7: `if mirror.wall:` (wall objects
are truthy, so this tests that `m` is not the root) followed by
`if not wall.center.in_field_angle(mirror.position, mirror.wall,
wall.plane()): continue`.  Returns whether the candidate is skipped. -/
def fovSkip {P Wl Pn : Type} (g : Geo P Wl Pn) (wall : Wl) : Mirror P Wl → Bool
  | .mk _ _ none _ => false
  | .mk pos _ (some mw) _ => ! g.inFieldAngle (g.center wall) pos mw (g.plane wall)

/-- One iteration of Step 7/8 of `ism` for a parent `m` and a candidate `wall`:
the three truncation checks in source order (`continue` becomes `none`), then
the reflected child.  `wall == mirror.wall` is `False` when `mirror.wall` is
`None`. -/
def tryMirror {P Wl Pn : Type} [DecidableEq Wl] (g : Geo P Wl Pn)
    (order : Nat) (m : Mirror P Wl) (wall : Wl) : Option (Mirror P Wl) :=
  if some wall = m.wall then none
  else if g.onInteriorSideOf m.position (g.plane wall) = -1 then none
  else if fovSkip g wall m then none
  else some (.mk (g.mirrorWith m.position (g.plane wall)) (some m) (some wall) order)

/-- `mirrors[order]` of `ism`: the list of mirror sources of one order.
`mirrors[0]` holds only the root; `mirrors[order]` is filled by looping over
the previous order's mirrors (outer) and over the walls in input order
(inner). -/
def ismLevel {P Wl Pn : Type} [DecidableEq Wl] (g : Geo P Wl Pn)
    (walls : List Wl) (source : P) : Nat → List (Mirror P Wl)
  | 0 => [.mk source none none 0]
  | n + 1 =>
      (ismLevel g walls source n).flatMap
        (fun m => walls.filterMap (fun w => tryMirror g (n + 1) m w))

/-- The flattened contents of the `mirrors` list of lists after the loop up to
`max_order`: the concatenation of the per-order lists. -/
def ismList {P Wl Pn : Type} [DecidableEq Wl] (g : Geo P Wl Pn)
    (walls : List Wl) (source : P) : Nat → List (Mirror P Wl)
  | 0 => ismLevel g walls source 0
  | n + 1 => ismList g walls source n ++ ismLevel g walls source (n + 1)

/-- `ism(walls, source_position, receiver_position, max_order)`.  The body
computes `source_position.distance_to(receiver_position)` (bound to an unused
local) and logs a shadow test; neither affects the emitted sequence, which is
the flattening of the per-order lists. -/
def ism {P Wl Pn : Type} [DecidableEq Wl] (g : Geo P Wl Pn)
    (walls : List Wl) (source_position receiver_position : P) (max_order : Nat) :
    List (Mirror P Wl) :=
  let _source_receiver_distance := g.distanceTo source_position receiver_position
  ismList g walls source_position max_order

/-- Python exceptions surfaced by the model. -/
inductive PyError where
  | valueError (msg : String)
  | indexError
  | attributeError
deriving DecidableEq

/-- The `Model` facade: walls, source position list, receiver position list,
and the order threshold. -/
structure Model (P Wl : Type) where
  walls : List Wl
  source : List P
  receiver : List P
  max_order : Nat

/-- `Model.is_source_moving`: `count(unique(self.source, key=tuple)) != 1`.
Points are identified with their coordinate tuples, so distinctness is value
distinctness. -/
def Model.is_source_moving {P Wl : Type} [DecidableEq P] (m : Model P Wl) : Bool :=
  m.source.dedup.length ≠ 1

/-- `Model.mirrors()`: raises `ValueError` when the wall list is empty,
otherwise yields `ism(self.walls, self.source[0], self.receiver[0],
self.max_order)`.  Indexing an empty `source` or `receiver` list raises
`IndexError`. -/
def Model.mirrors {P Wl Pn : Type} [DecidableEq Wl] (g : Geo P Wl Pn)
    (m : Model P Wl) : Except PyError (List (Mirror P Wl)) :=
  if m.walls = [] then .error (.valueError "ISM cannot run without any walls.")
  else
    match m.source.head?, m.receiver.head? with
    | some s, some r => .ok (ism g m.walls s r m.max_order)
    | _, _ => .error .indexError

/-- A mirror after the evaluation pass of `Model._determine`: the three result
arrays, one row per receiver (and one strength entry per frequency). -/
structure EvalMirror (P Wl : Type) where
  mirror : Mirror P Wl
  effective : List Int
  strength : List (List Cx)
  distance : List Rat
deriving DecidableEq

/-- State-passing rendering of the Python heap: the strength matrices already
stored on evaluated mirror objects, most recent first.  Python follows the
`mirror.mother` object reference; the lookup finds the (unique up to value)
evaluated entry for that mirror value. -/
def lookupStrength {P Wl : Type} [DecidableEq P] [DecidableEq Wl] :
    List (Mirror P Wl × List (List Cx)) → Mirror P Wl → Option (List (List Cx))
  | [], _ => none
  | (k, v) :: rest, m => if k = m then some v else lookupStrength rest m

/-- The mother-strength selection inside the receiver loop of
`Model._determine`: `mirror.mother.strength[t]` when a mother exists, else
`np.ones(n_frequencies, dtype='complex128')`.  A missing heap entry or row
would be an `AttributeError`/`IndexError` in Python (`none` here). -/
def motherStrengthAt {P Wl : Type} [DecidableEq P] [DecidableEq Wl]
    (state : List (Mirror P Wl × List (List Cx))) (t nFreq : Nat) :
    Mirror P Wl → Option (List Cx)
  | .mk _ none _ _ => some (List.replicate nFreq ((1 : Int), (0 : Int)))
  | .mk _ (some mo) _ _ => do
      let sv ← lookupStrength state mo
      sv.get? t

/-- The `for t in range(n_positions)` loop of `Model._determine` for one
mirror: one `(effective, strength, distance)` cell per receiver position,
each computed by `test_effectiveness(walls, source[0], receiver[t],
mirror.position, mirror.wall, mother_strength)`. -/
def evalCells {P Wl Pn : Type} [DecidableEq P] [DecidableEq Wl] (g : Geo P Wl Pn)
    (walls : List Wl) (src : P)
    (state : List (Mirror P Wl × List (List Cx))) (nFreq : Nat)
    (m : Mirror P Wl) : List P → Nat → Option (List (Int × List Cx × Rat))
  | [], _ => some []
  | r :: rs, t => do
      let mvec ← motherStrengthAt state t nFreq m
      let rest ← evalCells g walls src state nFreq m rs (t + 1)
      some (g.testEffectiveness walls src r m.position m.wall mvec :: rest)

/-- The `while True: mirror = next(mirrors)` loop of `Model._determine`: each
mirror of the stream is annotated, in generation order, with its result
arrays; its strength matrix is then stored on the heap for its children. -/
def determineStream {P Wl Pn : Type} [DecidableEq P] [DecidableEq Wl] (g : Geo P Wl Pn)
    (walls : List Wl) (src : P) (receivers : List P) (nFreq : Nat) :
    List (Mirror P Wl) → List (Mirror P Wl × List (List Cx)) →
    Option (List (EvalMirror P Wl))
  | [], _ => some []
  | m :: rest, state => do
      let cells ← evalCells g walls src state nFreq m receivers 0
      let em : EvalMirror P Wl :=
        ⟨m, cells.map (·.1), cells.map (·.2.1), cells.map (·.2.2)⟩
      let out ← determineStream g walls src receivers nFreq rest ((m, em.strength) :: state)
      some (em :: out)

/-- `Model._strongest(mirrors, amount)`: `nlargest(amount, mirrors,
key=lambda x: x.strength.max())`.  By the `heapq` documentation this equals
`sorted(mirrors, key=key, reverse=True)[:amount]`; `sorted` is a stable sort
and all stable sorts agree extensionally, so it is modelled with the stable
insertion sort, descending by the numpy maximum of the strength array. -/
def Model.strongest {P Wl : Type} (amount : Nat)
    (mirrors : List (EvalMirror P Wl)) : List (EvalMirror P Wl) :=
  (mirrors.insertionSort
    (fun a b => cxLe (npmax b.strength.flatten) (npmax a.strength.flatten))).take amount

/-- `Model.determine(strongest=None)`: empty walls raise `ValueError`; then
the pipeline generation -> evaluation -> (`if strongest:`) top-K selection.
`n_frequencies` is `len(self.walls[0].impedance)`. -/
def Model.determine {P Wl Pn : Type} [DecidableEq P] [DecidableEq Wl] (g : Geo P Wl Pn)
    (m : Model P Wl) (strongest : Option Nat) : Except PyError (List (EvalMirror P Wl)) :=
  match m.walls, m.source.head?, m.receiver.head? with
  | [], _, _ => .error (.valueError "ISM cannot run without any walls.")
  | w0 :: ws, some s, some r =>
      match determineStream g (w0 :: ws) s m.receiver ((g.impedance w0).length)
          (ism g (w0 :: ws) s r m.max_order) [] with
      | some out =>
          .ok (match strongest with
               | some k => if k ≠ 0 then Model.strongest k out else out
               | none => out)
      | none => .error .attributeError
  | _ :: _, _, _ => .error .indexError

/-- The per-receiver result triple of a mirror, written as the recursion that
the evaluation order of `Model._determine` realises: a mirror's cell for
receiver `r` is `test_effectiveness` applied to the mother's strength row for
that same receiver (computed when the mother was evaluated, strictly earlier
in the stream), or to a vector of ones for the root. -/
def mirrorTriple {P Wl Pn : Type} (g : Geo P Wl Pn) (walls : List Wl)
    (src r : P) (nFreq : Nat) : Mirror P Wl → Int × List Cx × Rat
  | .mk pos none wall _ =>
      g.testEffectiveness walls src r pos wall
        (List.replicate nFreq ((1 : Int), (0 : Int)))
  | .mk pos (some mo) wall _ =>
      g.testEffectiveness walls src r pos wall
        ((mirrorTriple g walls src r nFreq mo).2.1)

/-- The strength matrix (one row per receiver) that evaluation computes for a
mirror. -/
def strengthMatrix {P Wl Pn : Type} (g : Geo P Wl Pn) (walls : List Wl)
    (src : P) (receivers : List P) (nFreq : Nat) (m : Mirror P Wl) : List (List Cx) :=
  receivers.map (fun r => (mirrorTriple g walls src r nFreq m).2.1)

/-- The fully evaluated record for a mirror. -/
def evalMirrorSpec {P Wl Pn : Type} (g : Geo P Wl Pn) (walls : List Wl)
    (src : P) (receivers : List P) (nFreq : Nat) (m : Mirror P Wl) : EvalMirror P Wl :=
  ⟨m,
   receivers.map (fun r => (mirrorTriple g walls src r nFreq m).1),
   receivers.map (fun r => (mirrorTriple g walls src r nFreq m).2.1),
   receivers.map (fun r => (mirrorTriple g walls src r nFreq m).2.2)⟩

/-- Elements (as Python values) that a source/receiver list may hold; the
setters do not inspect the elements of a plain list, so junk is representable. -/
inductive PyVal where
  | pt (x y z : Rat)
  | other (tag : Nat)
deriving DecidableEq

/-- The argument shapes relevant to the `source`/`receiver` property setters:
a single `geometry.Point` (not a list, not an ndarray), a plain Python list,
or a 2-D numpy array of coordinate rows. -/
inductive PosArg where
  | point (x y z : Rat)
  | pylist (xs : List PyVal)
  | ndarray (rows : List (Rat × Rat × Rat))

/-- The body shared by the `source` and `receiver` setters: a list is stored
as-is, an ndarray is converted row-by-row via `Point(*row)`, anything else
raises `ValueError("List of Point instances are required.")`. -/
def setPositionAttr : PosArg → Except PyError (List PyVal)
  | .pylist xs => .ok xs
  | .ndarray rows => .ok (rows.map (fun row => .pt row.1 row.2.1 row.2.2))
  | .point _ _ _ => .error (.valueError "List of Point instances are required.")

/-- A `Model` as stored after `__init__`: the setters have run on `source` and
`receiver`. -/
structure RawModel (Wl : Type) where
  walls : List Wl
  source : List PyVal
  receiver : List PyVal
  max_order : Nat

/-- `Model.__init__`: assigns `walls`, then `source` and `receiver` through
their property setters (source first). -/
def RawModel.new {Wl : Type} (walls : List Wl) (src rcv : PosArg)
    (max_order : Nat) : Except PyError (RawModel Wl) :=
  match setPositionAttr src with
  | .error e => .error e
  | .ok s =>
      match setPositionAttr rcv with
      | .error e => .error e
      | .ok r => .ok ⟨walls, s, r, max_order⟩

/-- A small concrete one-dimensional instantiation of the provider, used for
concrete witnesses: points, walls and planes are integer coordinates, a
wall's plane and center are its coordinate, reflection is the 1-D point
reflection `2*pl - p`, the exterior side is the negative half-line, and every
wall center is visible. -/
def geoA : Geo Int Int Int where
  plane w := w
  center w := w
  onInteriorSideOf p _ := if p < 0 then -1 else 1
  inFieldAngle _ _ _ _ := true
  mirrorWith p pl := 2 * pl - p
  distanceTo p q := ((p - q : Int) : Rat)
  impedance _ := [((1 : Int), (0 : Int))]
  testEffectiveness _ _ r pos _ ms := (pos, ms.map (fun c => (c.1 + r, c.2)), (0 : Rat))

/-- A model with two distinct source positions, used as a concrete moving
source. -/
def movingModel : Model Int Int := ⟨[2, 7], [5, 6], [0], 1⟩

/-! ## Theorems -/

/-- C5: for all wall counts `w` and orders `o`, `amount_of_sources(o, w)`
equals `1 + Σ_{k=1}^{o} w·(w-1)^{k-1}` in exact integer arithmetic (it is a
pure function); in particular `amount_of_sources(0, 4) = 1`,
`amount_of_sources(1, 4) = 5` and `amount_of_sources(2, 4) = 17`. -/
theorem amount_of_sources_closed_form :
    (∀ (o : Nat) (w : Int),
        amount_of_sources o w = 1 + ∑ k ∈ Finset.Icc 1 o, w * (w - 1) ^ (k - 1)) ∧
    amount_of_sources 0 4 = 1 ∧ amount_of_sources 1 4 = 5 ∧
    amount_of_sources 2 4 = 17 := by
  refine ⟨?_, by decide, by decide, by decide⟩
  intro o w
  induction o with
  | zero => simp [amount_of_sources]
  | succ n ih =>
      rw [amount_of_sources, List.range'_concat,
        Finset.sum_Icc_succ_top (by omega : 1 ≤ n + 1)]
      rw [amount_of_sources] at ih
      simp only [List.map_append, List.sum_append, List.map_cons, List.map_nil,
        List.sum_cons, List.sum_nil, one_mul, Nat.add_sub_cancel,
        Nat.add_sub_cancel_left]
      linarith [ih]

/-- C10: a single Point given as `source`/`receiver` (to the setter, hence
also to the constructor) raises `ValueError`; a plain list of any length is
stored as-is with unvalidated elements; a numpy array is converted row-by-row
into a list of Points. -/
theorem position_setter_cases :
    (∀ x y z, setPositionAttr (.point x y z) =
        .error (.valueError "List of Point instances are required.")) ∧
    (∀ xs, setPositionAttr (.pylist xs) = .ok xs) ∧
    (∀ rows, setPositionAttr (.ndarray rows) =
        .ok (rows.map (fun row => .pt row.1 row.2.1 row.2.2))) ∧
    (∀ {Wl : Type} (walls : List Wl) x y z rcv mo,
        RawModel.new walls (.point x y z) rcv mo =
          .error (.valueError "List of Point instances are required.")) ∧
    (∀ {Wl : Type} (walls : List Wl) xs x y z mo,
        RawModel.new walls (.pylist xs) (.point x y z) mo =
          .error (.valueError "List of Point instances are required.")) :=
  ⟨fun _ _ _ => rfl, fun _ => rfl, fun _ => rfl,
   fun _ _ _ _ _ _ => rfl, fun _ _ _ _ _ _ => rfl⟩

/-- C6: with an empty wall list, both `mirrors()` and `determine()` raise the
configuration `ValueError` and produce no mirrors, for every source, receiver,
max order and `strongest` argument. -/
theorem empty_walls_is_error {P Wl Pn : Type} [DecidableEq P] [DecidableEq Wl]
    (g : Geo P Wl Pn) (m : Model P Wl) (h : m.walls = []) :
    Model.mirrors g m = .error (.valueError "ISM cannot run without any walls.") ∧
    ∀ strongest, Model.determine g m strongest =
      .error (.valueError "ISM cannot run without any walls.") := by
  obtain ⟨w, s, r, o⟩ := m
  cases h
  exact ⟨rfl, fun _ => rfl⟩

theorem empty_walls_is_error_witness :
    Model.mirrors geoA ⟨[], [0], [0], 3⟩ =
      .error (.valueError "ISM cannot run without any walls.") ∧
    Model.determine geoA ⟨[], [0], [0], 3⟩ (some 2) =
      .error (.valueError "ISM cannot run without any walls.") :=
  ⟨(empty_walls_is_error geoA ⟨[], [0], [0], 3⟩ rfl).1,
   (empty_walls_is_error geoA ⟨[], [0], [0], 3⟩ rfl).2 (some 2)⟩

/-- C9: two invocations of `mirrors()` with unchanged walls, source, receiver
and max order yield equal mirror sequences (equality of the `Mirror` values
captures positions, generating walls, orders and the whole mother chain). -/
theorem mirrors_deterministic {P Wl Pn : Type} [DecidableEq Wl] (g : Geo P Wl Pn)
    (m1 m2 : Model P Wl) (hw : m1.walls = m2.walls) (hs : m1.source = m2.source)
    (hr : m1.receiver = m2.receiver) (ho : m1.max_order = m2.max_order) :
    Model.mirrors g m1 = Model.mirrors g m2 := by
  obtain ⟨w1, s1, r1, o1⟩ := m1
  obtain ⟨w2, s2, r2, o2⟩ := m2
  cases hw; cases hs; cases hr; cases ho; rfl

theorem mirrors_deterministic_witness :
    Model.mirrors geoA ⟨[2, 7], [5], [3], 2⟩ = Model.mirrors geoA ⟨[2, 7], [5], [3], 2⟩ :=
  mirrors_deterministic geoA _ _ rfl rfl rfl rfl

/-- C8: the generated mirror sequence does not depend on the receiver: `ism`
yields the same list for any two receiver positions, and two models differing
only in their (non-empty) receiver lists have equal `mirrors()` output;
`mirrors()` reads only the first receiver position (and uses it only for a
logged distance). -/
theorem mirrors_receiver_independent {P Wl Pn : Type} [DecidableEq Wl]
    (g : Geo P Wl Pn) :
    (∀ (walls : List Wl) (src r r' : P) (N : Nat),
        ism g walls src r N = ism g walls src r' N) ∧
    (∀ (m1 m2 : Model P Wl), m1.walls = m2.walls → m1.source = m2.source →
        m1.max_order = m2.max_order → m1.receiver ≠ [] → m2.receiver ≠ [] →
        Model.mirrors g m1 = Model.mirrors g m2) := by
  refine ⟨fun _ _ _ _ _ => rfl, ?_⟩
  intro m1 m2 hw hs ho hr1 hr2
  obtain ⟨w1, s1, r1, o1⟩ := m1
  obtain ⟨w2, s2, r2, o2⟩ := m2
  cases hw; cases hs; cases ho
  cases r1 with
  | nil => exact absurd rfl hr1
  | cons a t1 =>
      cases r2 with
      | nil => exact absurd rfl hr2
      | cons b t2 => cases s1 <;> rfl

theorem mirrors_receiver_independent_witness :
    Model.mirrors geoA ⟨[2, 7], [5], [3], 2⟩ = Model.mirrors geoA ⟨[2, 7], [5], [4], 2⟩ :=
  (mirrors_receiver_independent geoA).2 _ _ rfl rfl rfl (by decide) (by decide)

/-- `ism` returns the flattened per-order lists (the distance computed from
the receiver is discarded). -/
theorem ism_eq_ismList {P Wl Pn : Type} [DecidableEq Wl] (g : Geo P Wl Pn)
    (walls : List Wl) (src rcv : P) (N : Nat) :
    ism g walls src rcv N = ismList g walls src N := rfl

/-- A generation attempt produces a child exactly when the three truncation
checks pass, and the child is the reflection with mother `m`, wall `w` and the
given order. -/
theorem tryMirror_eq_some_iff {P Wl Pn : Type} [DecidableEq Wl] (g : Geo P Wl Pn)
    (o : Nat) (m : Mirror P Wl) (w : Wl) (c : Mirror P Wl) :
    tryMirror g o m w = some c ↔
      some w ≠ m.wall ∧
      g.onInteriorSideOf m.position (g.plane w) ≠ -1 ∧
      (∀ mw, m.wall = some mw →
        g.inFieldAngle (g.center w) m.position mw (g.plane w) = true) ∧
      c = .mk (g.mirrorWith m.position (g.plane w)) (some m) (some w) o := by
  obtain ⟨mp, mm, mwall, mord⟩ := m
  cases mwall with
  | none =>
      simp only [tryMirror, fovSkip, Mirror.wall, Mirror.position]
      rw [if_neg (by simp : ¬ some w = (none : Option Wl)),
        if_neg (by simp : ¬ (false : Bool) = true)]
      by_cases h2 : g.onInteriorSideOf mp (g.plane w) = -1
      · rw [if_pos h2]
        simp [h2]
      · rw [if_neg h2]
        simp only [Option.some.injEq]
        constructor
        · intro h
          subst h
          refine ⟨by simp, h2, ?_, rfl⟩
          intro mw hmw
          exact absurd hmw (by simp)
        · rintro ⟨-, -, -, rfl⟩
          rfl
  | some mw =>
      simp only [tryMirror, fovSkip, Mirror.wall, Mirror.position]
      by_cases h1 : some w = some mw
      · rw [if_pos h1]
        simp [h1]
      · rw [if_neg h1]
        by_cases h2 : g.onInteriorSideOf mp (g.plane w) = -1
        · rw [if_pos h2]
          simp [h2]
        · rw [if_neg h2]
          by_cases h3 : g.inFieldAngle (g.center w) mp mw (g.plane w) = true
          · rw [if_neg (by simp [h3] : ¬ (! g.inFieldAngle (g.center w) mp mw (g.plane w)) = true)]
            simp only [Option.some.injEq]
            constructor
            · intro h
              subst h
              refine ⟨h1, h2, ?_, rfl⟩
              intro mw' hmw'
              cases hmw'
              exact h3
            · rintro ⟨-, -, -, rfl⟩
              rfl
          · rw [if_pos (by simp [h3] : (! g.inFieldAngle (g.center w) mp mw (g.plane w)) = true)]
            constructor
            · intro h
              exact nomatch h
            · rintro ⟨-, -, hfov, -⟩
              exact absurd (hfov mw rfl) h3

/-- Membership in an order-(n+1) level comes from a parent of order n and a
wall of the input list. -/
theorem mem_ismLevel_succ {P Wl Pn : Type} [DecidableEq Wl] (g : Geo P Wl Pn)
    (walls : List Wl) (src : P) (n : Nat) (c : Mirror P Wl) :
    c ∈ ismLevel g walls src (n + 1) ↔
      ∃ m ∈ ismLevel g walls src n, ∃ w ∈ walls, tryMirror g (n + 1) m w = some c := by
  simp [ismLevel, List.mem_flatMap, List.mem_filterMap]

/-- Every mirror of the order-n level has order n. -/
theorem ismLevel_order {P Wl Pn : Type} [DecidableEq Wl] (g : Geo P Wl Pn)
    (walls : List Wl) (src : P) :
    ∀ (n : Nat), ∀ m ∈ ismLevel g walls src n, m.order = n := by
  intro n
  cases n with
  | zero =>
      intro m hm
      simp only [ismLevel, List.mem_singleton] at hm
      subst hm; rfl
  | succ k =>
      intro m hm
      rw [mem_ismLevel_succ] at hm
      obtain ⟨p, hp, w, hw, ht⟩ := hm
      rw [tryMirror_eq_some_iff] at ht
      obtain ⟨-, -, -, rfl⟩ := ht
      rfl

/-- Every mirror of an order-(n+1) level has a mother in the order-n level. -/
theorem ismLevel_mother {P Wl Pn : Type} [DecidableEq Wl] (g : Geo P Wl Pn)
    (walls : List Wl) (src : P) (n : Nat) :
    ∀ c ∈ ismLevel g walls src (n + 1),
      ∃ mo ∈ ismLevel g walls src n, c.mother = some mo := by
  intro c hc
  rw [mem_ismLevel_succ] at hc
  obtain ⟨m, hm, w, hw, ht⟩ := hc
  rw [tryMirror_eq_some_iff] at ht
  obtain ⟨-, -, -, rfl⟩ := ht
  exact ⟨m, hm, rfl⟩

/-- The order-n level is contained in the flattened list up to order n. -/
theorem ismLevel_subset_ismList {P Wl Pn : Type} [DecidableEq Wl] (g : Geo P Wl Pn)
    (walls : List Wl) (src : P) :
    ∀ (n : Nat), ∀ m ∈ ismLevel g walls src n, m ∈ ismList g walls src n := by
  intro n
  cases n with
  | zero => exact fun m hm => hm
  | succ k => exact fun m hm => List.mem_append_right _ hm

/-- Membership in the flattened list is membership in some level of order at
most the bound. -/
theorem mem_ismList_iff {P Wl Pn : Type} [DecidableEq Wl] (g : Geo P Wl Pn)
    (walls : List Wl) (src : P) :
    ∀ (N : Nat) (c : Mirror P Wl),
      c ∈ ismList g walls src N ↔ ∃ k ≤ N, c ∈ ismLevel g walls src k := by
  intro N
  induction N with
  | zero =>
      intro c
      constructor
      · exact fun h => ⟨0, Nat.le_refl 0, h⟩
      · rintro ⟨k, hk, h⟩
        obtain rfl : k = 0 := Nat.le_zero.mp hk
        exact h
  | succ n ih =>
      intro c
      rw [ismList, List.mem_append, ih]
      constructor
      · rintro (⟨k, hk, h⟩ | h)
        · exact ⟨k, Nat.le_succ_of_le hk, h⟩
        · exact ⟨n + 1, Nat.le_refl _, h⟩
      · rintro ⟨k, hk, h⟩
        rcases Nat.lt_or_ge k (n + 1) with hlt | hge
        · exact Or.inl ⟨k, Nat.lt_succ_iff.mp hlt, h⟩
        · obtain rfl : k = n + 1 := Nat.le_antisymm hk hge
          exact Or.inr h

/-- Every mirror of the flattened list up to order N has order at most N. -/
theorem ismList_order_le {P Wl Pn : Type} [DecidableEq Wl] (g : Geo P Wl Pn)
    (walls : List Wl) (src : P) :
    ∀ (N : Nat), ∀ m ∈ ismList g walls src N, m.order ≤ N := by
  intro N m hm
  rw [mem_ismList_iff] at hm
  obtain ⟨k, hk, h⟩ := hm
  rw [ismLevel_order g walls src k m h]
  exact hk

/-- The flattened list starts with the root mirror. -/
theorem ismList_head {P Wl Pn : Type} [DecidableEq Wl] (g : Geo P Wl Pn)
    (walls : List Wl) (src : P) :
    ∀ (N : Nat), (ismList g walls src N).head? = some (.mk src none none 0) := by
  intro N
  induction N with
  | zero => rfl
  | succ n ih => rw [ismList, List.head?_append, ih]; rfl

/-- The flattened list is sorted by order. -/
theorem ismList_sorted {P Wl Pn : Type} [DecidableEq Wl] (g : Geo P Wl Pn)
    (walls : List Wl) (src : P) :
    ∀ (N : Nat), (ismList g walls src N).Pairwise (fun a b => a.order ≤ b.order) := by
  intro N
  induction N with
  | zero => simp [ismList, ismLevel]
  | succ n ih =>
      rw [ismList, List.pairwise_append]
      refine ⟨ih, ?_, ?_⟩
      · refine List.pairwise_of_forall_mem_list (fun a ha b hb => ?_)
        rw [ismLevel_order g walls src (n + 1) a ha,
          ismLevel_order g walls src (n + 1) b hb]
      · intro a ha b hb
        rw [ismLevel_order g walls src (n + 1) b hb]
        exact Nat.le_succ_of_le (ismList_order_le g walls src n a ha)

/-- C3: for non-empty walls generation emits a finite order-major sequence:
the root (order 0, no mother, no wall) comes first and unconditionally, orders
never decrease along the sequence (so every order-n mirror precedes every
order-(n+1) mirror), and `max_order = 0` yields exactly the root. -/
theorem ism_order_major {P Wl Pn : Type} [DecidableEq Wl] (g : Geo P Wl Pn)
    (walls : List Wl) (src rcv : P) (N : Nat) (_hw : walls ≠ []) :
    (ism g walls src rcv N).head? = some (.mk src none none 0) ∧
    (ism g walls src rcv N).Pairwise (fun a b => a.order ≤ b.order) ∧
    ism g walls src rcv 0 = [.mk src none none 0] := by
  rw [ism_eq_ismList, ism_eq_ismList]
  exact ⟨ismList_head g walls src N, ismList_sorted g walls src N, rfl⟩

theorem ism_order_major_witness :
    (ism geoA [2, 7] 5 0 2).head? = some (.mk 5 none none 0) ∧
    (ism geoA [2, 7] 5 0 2).Pairwise (fun a b => a.order ≤ b.order) ∧
    ism geoA [2, 7] 5 0 0 = [.mk 5 none none 0] :=
  ism_order_major geoA [2, 7] 5 0 2 (by decide)

/-- C1: a child of order n+1 is emitted for a parent m of order n and a wall w
of the input list exactly when the three truncation checks pass: (a) w is not
m's generating wall, (b) m's position is not classified on the exterior side
of w's plane, and (c) when m is non-root the center of w lies in the field of
view from m's position bounded by m's generating wall; the emitted child is
m's position reflected across w's plane with mother m, wall w and order n+1.
Consequently no generated mirror shares its wall with its own mother. -/
theorem ism_generation_rule {P Wl Pn : Type} [DecidableEq Wl] (g : Geo P Wl Pn)
    (walls : List Wl) (src rcv : P) (N : Nat) :
    (∀ (n : Nat) (c : Mirror P Wl),
        c ∈ ismLevel g walls src (n + 1) ↔
          ∃ m ∈ ismLevel g walls src n, ∃ w ∈ walls,
            some w ≠ m.wall ∧
            g.onInteriorSideOf m.position (g.plane w) ≠ -1 ∧
            (∀ mw, m.wall = some mw →
                g.inFieldAngle (g.center w) m.position mw (g.plane w) = true) ∧
            c = .mk (g.mirrorWith m.position (g.plane w)) (some m) (some w) (n + 1)) ∧
    (∀ c ∈ ism g walls src rcv N, ∀ mo, c.mother = some mo → c.wall ≠ mo.wall) := by
  constructor
  · intro n c
    rw [mem_ismLevel_succ]
    constructor
    · rintro ⟨m, hm, w, hw, ht⟩
      rw [tryMirror_eq_some_iff] at ht
      exact ⟨m, hm, w, hw, ht⟩
    · rintro ⟨m, hm, w, hw, h⟩
      exact ⟨m, hm, w, hw, (tryMirror_eq_some_iff g (n + 1) m w c).mpr h⟩
  · intro c hc mo hmo
    rw [ism_eq_ismList, mem_ismList_iff] at hc
    obtain ⟨k, hk, hck⟩ := hc
    cases k with
    | zero =>
        simp only [ismLevel, List.mem_singleton] at hck
        subst hck
        exact absurd hmo (by simp [Mirror.mother])
    | succ n =>
        rw [mem_ismLevel_succ] at hck
        obtain ⟨m, hm, w, hw, ht⟩ := hck
        rw [tryMirror_eq_some_iff] at ht
        obtain ⟨hne, -, -, rfl⟩ := ht
        simp only [Mirror.mother, Option.some.injEq] at hmo
        subst hmo
        simpa [Mirror.wall] using hne

theorem ism_generation_rule_witness :
    (Mirror.mk (-5 : Int)
        (some (.mk 9 (some (.mk 5 none none 0)) (some (7 : Int)) 1)) (some 2) 2).wall ≠
      (Mirror.mk (9 : Int) (some (.mk 5 none none 0)) (some 7) 1).wall :=
  (ism_generation_rule geoA [2, 7] 5 0 2).2
    (.mk (-5) (some (.mk 9 (some (.mk 5 none none 0)) (some 7) 1)) (some 2) 2)
    (by decide)
    (.mk 9 (some (.mk 5 none none 0)) (some 7) 1) rfl

/-- Parents precede their children in the flattened generation order: a
mirror's mother occurs at a strictly earlier index. -/
theorem ismList_mother_before {P Wl Pn : Type} [DecidableEq Wl] (g : Geo P Wl Pn)
    (walls : List Wl) (src : P) :
    ∀ (N i : Nat) (c : Mirror P Wl), (ismList g walls src N).get? i = some c →
      ∀ mo, c.mother = some mo → ∃ j < i, (ismList g walls src N).get? j = some mo := by
  intro N
  induction N with
  | zero =>
      intro i c hc mo hmo
      cases i with
      | zero =>
          obtain rfl : (Mirror.mk src none none 0 : Mirror P Wl) = c := by
            simpa [ismList, ismLevel] using hc
          exact absurd hmo (by simp [Mirror.mother])
      | succ n => simp [ismList, ismLevel] at hc
  | succ n ih =>
      intro i c hc mo hmo
      rw [ismList] at hc
      by_cases hi : i < (ismList g walls src n).length
      · rw [List.get?_append hi] at hc
        obtain ⟨j, hj, hget⟩ := ih i c hc mo hmo
        refine ⟨j, hj, ?_⟩
        rw [ismList, List.get?_append (lt_trans hj hi)]
        exact hget
      · push_neg at hi
        rw [List.get?_append_right hi] at hc
        have hcmem : c ∈ ismLevel g walls src (n + 1) := List.get?_mem hc
        obtain ⟨mo', hmo'mem, hcmo'⟩ := ismLevel_mother g walls src n c hcmem
        rw [hmo] at hcmo'
        obtain rfl : mo = mo' := by injection hcmo'
        have hmem : mo ∈ ismList g walls src n :=
          ismLevel_subset_ismList g walls src n mo hmo'mem
        obtain ⟨j, hj⟩ := List.mem_iff_get?.mp hmem
        obtain ⟨hjlt, -⟩ := List.get?_eq_some.mp hj
        refine ⟨j, lt_of_lt_of_le hjlt hi, ?_⟩
        rw [ismList, List.get?_append hjlt]
        exact hj

/-- When the heap already holds the mother's strength matrix (for a non-root
mirror), the receiver loop succeeds and computes, receiver by receiver,
exactly the triples of `mirrorTriple`. -/
theorem evalCells_eq {P Wl Pn : Type} [DecidableEq P] [DecidableEq Wl]
    (g : Geo P Wl Pn) (walls : List Wl) (src : P) (receivers : List P)
    (state : List (Mirror P Wl × List (List Cx))) (nFreq : Nat) (m : Mirror P Wl)
    (hm : ∀ mo, m.mother = some mo →
        lookupStrength state mo = some (strengthMatrix g walls src receivers nFreq mo)) :
    ∀ (rs : List P) (t : Nat), receivers.drop t = rs →
      evalCells g walls src state nFreq m rs t =
        some (rs.map (fun r => mirrorTriple g walls src r nFreq m)) := by
  obtain ⟨mp, mm, mwl, mord⟩ := m
  intro rs
  induction rs with
  | nil => intro t _; rfl
  | cons r rs' ih =>
      intro t hdrop
      have hget : receivers.get? t = some r := by
        have h0 := List.get?_drop receivers t 0
        rw [hdrop] at h0
        simpa using h0.symm
      have hdrop' : receivers.drop (t + 1) = rs' := by
        have h1 := List.drop_drop 1 t receivers
        rw [hdrop] at h1
        simpa using h1.symm
      cases mm with
      | none =>
          rw [evalCells, ih (t + 1) hdrop']
          simp [motherStrengthAt, mirrorTriple, Mirror.position, Mirror.wall]
      | some mo =>
          rw [evalCells, ih (t + 1) hdrop']
          have hl := hm mo rfl
          simp only [motherStrengthAt, hl, Option.bind_eq_bind, Option.some_bind,
            strengthMatrix, List.get?_map, hget, Option.map_some']
          simp [mirrorTriple, Mirror.position, Mirror.wall]

/-- The evaluation fold succeeds and produces exactly the recursive
per-receiver records when every mirror's mother is either already on the heap
with its computed strength matrix, or occurs earlier in the stream. -/
theorem determineStream_eq {P Wl Pn : Type} [DecidableEq P] [DecidableEq Wl]
    (g : Geo P Wl Pn) (walls : List Wl) (src : P) (receivers : List P) (nFreq : Nat) :
    ∀ (ms : List (Mirror P Wl)) (state : List (Mirror P Wl × List (List Cx))),
      (∀ mo sv, lookupStrength state mo = some sv →
          sv = strengthMatrix g walls src receivers nFreq mo) →
      (∀ (i : Nat) (c : Mirror P Wl), ms.get? i = some c → ∀ mo, c.mother = some mo →
          (∃ j < i, ms.get? j = some mo) ∨ (lookupStrength state mo).isSome) →
      determineStream g walls src receivers nFreq ms state =
        some (ms.map (evalMirrorSpec g walls src receivers nFreq)) := by
  intro ms
  induction ms with
  | nil => intro state _ _; rfl
  | cons m rest ih =>
      intro state hstate hcov
      have hmhead : ∀ mo, m.mother = some mo →
          lookupStrength state mo =
            some (strengthMatrix g walls src receivers nFreq mo) := by
        intro mo hmo
        rcases hcov 0 m rfl mo hmo with ⟨j, hj, -⟩ | hsome
        · exact absurd hj (Nat.not_lt_zero j)
        · obtain ⟨sv, hsv⟩ := Option.isSome_iff_exists.mp hsome
          rw [hsv, hstate mo sv hsv]
      have hcells :=
        evalCells_eq g walls src receivers state nFreq m hmhead receivers 0
          (List.drop_zero receivers)
      have hstate' : ∀ mo sv,
          lookupStrength
            ((m, ((receivers.map (fun r => mirrorTriple g walls src r nFreq m)).map
                (·.2.1))) :: state) mo = some sv →
            sv = strengthMatrix g walls src receivers nFreq mo := by
        intro mo sv hsv
        rw [lookupStrength] at hsv
        by_cases hme : m = mo
        · rw [if_pos hme] at hsv
          obtain rfl : ((receivers.map (fun r => mirrorTriple g walls src r nFreq m)).map
              (·.2.1)) = sv := by injection hsv
          subst hme
          rw [List.map_map]
          rfl
        · rw [if_neg hme] at hsv
          exact hstate mo sv hsv
      have hcov' : ∀ (i : Nat) (c : Mirror P Wl), rest.get? i = some c →
          ∀ mo, c.mother = some mo →
            (∃ j < i, rest.get? j = some mo) ∨
            (lookupStrength
              ((m, ((receivers.map (fun r => mirrorTriple g walls src r nFreq m)).map
                  (·.2.1))) :: state) mo).isSome := by
        intro i c hc mo hmo
        rcases hcov (i + 1) c (by rw [List.get?_cons_succ]; exact hc) mo hmo with
          ⟨j, hj, hget⟩ | hsome
        · cases j with
          | zero =>
              right
              obtain rfl : m = mo := by
                rw [List.get?_cons_zero] at hget
                injection hget
              rw [lookupStrength, if_pos rfl]
              rfl
          | succ j' =>
              left
              rw [List.get?_cons_succ] at hget
              exact ⟨j', Nat.lt_of_succ_lt_succ hj, hget⟩
        · right
          rw [lookupStrength]
          by_cases hme : m = mo
          · rw [if_pos hme]; rfl
          · rw [if_neg hme]; exact hsome
      rw [determineStream, hcells]
      simp only [Option.bind_eq_bind, Option.some_bind]
      rw [ih _ hstate' hcov']
      simp [evalMirrorSpec, List.map_map, Function.comp]

/-- C2: along the evaluated stream of `determine()` every mirror's
`(effective[t], strength[t], distance[t])` is `test_effectiveness` applied to
the receiver with index t and to the mother's already-computed strength row
for that same index t (the mother is evaluated at a strictly earlier stream
position); for the root a vector of ones, one per frequency, is passed
instead.  No other receiver's row and no stale or default value is ever
used. -/
theorem determine_strength_propagation {P Wl Pn : Type} [DecidableEq P]
    [DecidableEq Wl] (g : Geo P Wl Pn) (walls : List Wl) (src rgen : P)
    (receivers : List P) (nFreq N : Nat) :
    ∃ out, determineStream g walls src receivers nFreq (ism g walls src rgen N) [] =
        some out ∧
      out.length = (ism g walls src rgen N).length ∧
      ∀ (i t : Nat) (em : EvalMirror P Wl) (r : P),
        out.get? i = some em → receivers.get? t = some r →
        (em.mirror.mother = none →
          (em.effective.get? t, em.strength.get? t, em.distance.get? t) =
            (some (g.testEffectiveness walls src r em.mirror.position em.mirror.wall
                (List.replicate nFreq ((1 : Int), (0 : Int)))).1,
             some (g.testEffectiveness walls src r em.mirror.position em.mirror.wall
                (List.replicate nFreq ((1 : Int), (0 : Int)))).2.1,
             some (g.testEffectiveness walls src r em.mirror.position em.mirror.wall
                (List.replicate nFreq ((1 : Int), (0 : Int)))).2.2)) ∧
        (∀ mo, em.mirror.mother = some mo →
          ∃ j, j < i ∧ ∃ em', out.get? j = some em' ∧ em'.mirror = mo ∧
            ∃ mvec, em'.strength.get? t = some mvec ∧
              (em.effective.get? t, em.strength.get? t, em.distance.get? t) =
                (some (g.testEffectiveness walls src r em.mirror.position
                    em.mirror.wall mvec).1,
                 some (g.testEffectiveness walls src r em.mirror.position
                    em.mirror.wall mvec).2.1,
                 some (g.testEffectiveness walls src r em.mirror.position
                    em.mirror.wall mvec).2.2)) := by
  have hstream :=
    determineStream_eq g walls src receivers nFreq (ism g walls src rgen N) []
      (fun mo sv hsv => by simp [lookupStrength] at hsv)
      (fun i c hc mo hmo => by
        left
        exact ismList_mother_before g walls src N i c hc mo hmo)
  refine ⟨_, hstream, by rw [List.length_map], ?_⟩
  intro i t em r hem hr
  have hr' : receivers[t]? = some r := by
    rw [← List.get?_eq_getElem?]
    exact hr
  rw [List.get?_map] at hem
  obtain ⟨m, hm, rfl⟩ : ∃ m, (ism g walls src rgen N).get? i = some m ∧
      em = evalMirrorSpec g walls src receivers nFreq m := by
    cases hms : (ism g walls src rgen N).get? i with
    | none => rw [hms] at hem; exact absurd hem (by simp)
    | some m => rw [hms] at hem; exact ⟨m, rfl, by injection hem; simp_all⟩
  obtain ⟨mp, mm, mwl, mord⟩ := m
  constructor
  · intro hnone
    have : mm = none := by simpa [evalMirrorSpec, Mirror.mother] using hnone
    subst this
    simp [evalMirrorSpec, Mirror.position, Mirror.wall, List.get?_map, hr', mirrorTriple]
  · intro mo hmo
    have hmm : mm = some mo := by
      simpa [evalMirrorSpec, Mirror.mother] using hmo
    subst hmm
    obtain ⟨j, hj, hgetj⟩ :=
      ismList_mother_before g walls src N i (Mirror.mk mp (some mo) mwl mord) hm mo rfl
    have hgetj' : (ism g walls src rgen N).get? j = some mo := hgetj
    refine ⟨j, hj, evalMirrorSpec g walls src receivers nFreq mo, ?_, rfl, ?_⟩
    · rw [List.get?_map, hgetj']
      rfl
    · refine ⟨(mirrorTriple g walls src r nFreq mo).2.1, ?_, ?_⟩
      · simp [evalMirrorSpec, List.get?_map, hr']
      · simp [evalMirrorSpec, Mirror.position, Mirror.wall, List.get?_map, hr',
          mirrorTriple]

/-- The concrete evaluated stream of `geoA` over walls `[2, 7]`, source `5`,
receivers `[3, 4]`, one frequency, `max_order = 1`. -/
def outB : List (EvalMirror Int Int) :=
  [⟨.mk 5 none none 0, [5, 5], [[(4, 0)], [(5, 0)]], [0, 0]⟩,
   ⟨.mk (-1) (some (.mk 5 none none 0)) (some 2) 1, [-1, -1],
    [[(7, 0)], [(9, 0)]], [0, 0]⟩,
   ⟨.mk 9 (some (.mk 5 none none 0)) (some 7) 1, [9, 9],
    [[(7, 0)], [(9, 0)]], [0, 0]⟩]

/-- The order-1 evaluated mirror of `outB` generated by wall 2. -/
def emB1 : EvalMirror Int Int :=
  ⟨.mk (-1) (some (.mk 5 none none 0)) (some 2) 1, [-1, -1],
   [[(7, 0)], [(9, 0)]], [0, 0]⟩

theorem determine_strength_propagation_witness :
    ∃ j, j < 1 ∧ ∃ em', outB.get? j = some em' ∧
      em'.mirror = Mirror.mk 5 none none 0 ∧
      ∃ mvec, em'.strength.get? 0 = some mvec ∧
        (emB1.effective.get? 0, emB1.strength.get? 0, emB1.distance.get? 0) =
          (some (geoA.testEffectiveness [2, 7] 5 3 emB1.mirror.position
              emB1.mirror.wall mvec).1,
           some (geoA.testEffectiveness [2, 7] 5 3 emB1.mirror.position
              emB1.mirror.wall mvec).2.1,
           some (geoA.testEffectiveness [2, 7] 5 3 emB1.mirror.position
              emB1.mirror.wall mvec).2.2) := by
  obtain ⟨out, h1, -, h3⟩ :=
    determine_strength_propagation geoA [2, 7] 5 0 [3, 4] 1 1
  have h2 : determineStream geoA [2, 7] 5 [3, 4] 1 (ism geoA [2, 7] 5 0 1) [] =
      some outB := by decide
  rw [h1] at h2
  obtain rfl : out = outB := by injection h2
  exact (h3 1 0 emB1 3 (by decide) (by decide)).2 (Mirror.mk 5 none none 0) (by decide)

/-- C4 amended: `select_strongest(mirrors, k)` returns exactly `min(k, count)`
mirrors, and every returned mirror's key — the numpy maximum of its complex
strength array, i.e. the greatest entry in numpy's lexicographic
(real part, then imaginary part) order, not the maximum magnitude — is greater
or equal (in that same order) to the key of every mirror not returned. -/
theorem strongest_topk {P Wl : Type} (k : Nat) (ms : List (EvalMirror P Wl)) :
    (Model.strongest k ms).length = min k ms.length ∧
    ∀ x ∈ Model.strongest k ms, ∀ y ∈ ms, y ∉ Model.strongest k ms →
      cxLe (npmax y.strength.flatten) (npmax x.strength.flatten) := by
  haveI : IsTotal (EvalMirror P Wl)
      (fun a b => cxLe (npmax b.strength.flatten) (npmax a.strength.flatten)) :=
    ⟨fun a b => (cxLe_total (npmax a.strength.flatten) (npmax b.strength.flatten)).symm⟩
  haveI : IsTrans (EvalMirror P Wl)
      (fun a b => cxLe (npmax b.strength.flatten) (npmax a.strength.flatten)) :=
    ⟨fun a b c hab hbc => cxLe_trans _ _ _ hbc hab⟩
  constructor
  · rw [Model.strongest, List.length_take,
      (List.perm_insertionSort
        (fun a b => cxLe (npmax b.strength.flatten) (npmax a.strength.flatten)) ms).length_eq]
  · intro x hx y hy hyn
    rw [Model.strongest] at hx hyn
    have hsorted :=
      List.sorted_insertionSort
        (fun a b => cxLe (npmax b.strength.flatten) (npmax a.strength.flatten)) ms
    have hys : y ∈ ms.insertionSort
        (fun a b => cxLe (npmax b.strength.flatten) (npmax a.strength.flatten)) :=
      (List.perm_insertionSort _ ms).mem_iff.mpr hy
    rw [← List.take_append_drop k
      (ms.insertionSort
        (fun a b => cxLe (npmax b.strength.flatten) (npmax a.strength.flatten))),
      List.mem_append] at hys
    rcases hys with hys | hys
    · exact absurd hys hyn
    · exact hsorted.rel_of_mem_take_of_mem_drop hx hys

/-- An evaluated mirror whose single strength entry has large magnitude but a
negative real part. -/
def cmA : EvalMirror Int Int := ⟨.mk 0 none none 0, [1], [[(-10, 0)]], [0]⟩

/-- An evaluated mirror whose single strength entry has small magnitude but a
positive real part. -/
def cmB : EvalMirror Int Int := ⟨.mk 1 none none 0, [1], [[(1, 0)]], [0]⟩

/-- C4 counterexample: with `k = 1`, `select_strongest` keeps the mirror whose
numpy complex maximum is larger (`1+0j` beats `-10+0j` in the lexicographic
order), not the one with the larger peak magnitude, so the returned mirror's
peak magnitude is strictly smaller than the rejected one's. -/
theorem strongest_not_by_magnitude :
    Model.strongest 1 [cmA, cmB] = [cmB] ∧
    ¬ (∀ x ∈ Model.strongest 1 [cmA, cmB], ∀ y ∈ [cmA, cmB],
        y ∉ Model.strongest 1 [cmA, cmB] →
          peakMagSq y.strength ≤ peakMagSq x.strength) := by
  exact ⟨by decide, by decide⟩

theorem strongest_topk_witness :
    cxLe (npmax cmA.strength.flatten) (npmax cmB.strength.flatten) :=
  (strongest_topk 1 [cmA, cmB]).2 cmB (by decide) cmA (by decide) (by decide)

/-- C7 counterexample: a Model whose source list holds two distinct positions
is reported as moving by `is_source_moving`, yet `mirrors()` and `determine()`
silently return a result instead of surfacing an error. -/
theorem moving_source_not_rejected :
    Model.is_source_moving movingModel = true ∧
    (∃ l, Model.mirrors geoA movingModel = .ok l) ∧
    (∃ l, Model.determine geoA movingModel none = .ok l) := by
  refine ⟨by decide, ⟨_, rfl⟩, ⟨_, rfl⟩⟩

/-- C7 amended: a moving source is never checked: no constructor or run-time
path consults `is_source_moving`, and `mirrors()`/`determine()` silently
compute using only the first source position. -/
theorem moving_source_silently_uses_head {P Wl Pn : Type} [DecidableEq P]
    [DecidableEq Wl] (g : Geo P Wl Pn) (m : Model P Wl) (p : P) (rest : List P)
    (h : m.source = p :: rest) :
    Model.mirrors g m = Model.mirrors g { m with source := [p] } ∧
    ∀ k, Model.determine g m k = Model.determine g { m with source := [p] } k := by
  obtain ⟨w, s, r, o⟩ := m
  cases h
  exact ⟨rfl, fun _ => rfl⟩

theorem moving_source_silently_uses_head_witness :
    Model.mirrors geoA movingModel = Model.mirrors geoA ⟨[2, 7], [5], [0], 1⟩ ∧
    Model.determine geoA movingModel none =
      Model.determine geoA ⟨[2, 7], [5], [0], 1⟩ none :=
  ⟨(moving_source_silently_uses_head geoA movingModel 5 [6] rfl).1,
   (moving_source_silently_uses_head geoA movingModel 5 [6] rfl).2 none⟩

end ISM
